import Mathlib

/-
Verification development for the octodns-dnsmadeeasy provider
(octodns_dnsmadeeasy/__init__.py).

Strings from the Python code are modelled as `List Char`; Python dicts
used as caches are modelled as association lists (first match wins, as
Python dict keys are unique).  Network responses are inputs to the
modelled functions; the HTTP requests a function issues are returned as
an explicit event trace.
-/

set_option autoImplicit false

abbrev Str := List Char

/-- Convenience conversion from a Lean string literal to the `List Char`
representation used throughout. -/
def str (s : String) : Str := s.toList

/-- Association-list lookup, modelling Python `dict.get` / `dict[key]`
(Python dict keys are unique, so first match wins). -/
def alookup {α : Type} : List (Str × α) → Str → Option α
  | [], _ => none
  | (k, v) :: rest, key => if k = key then some v else alookup rest key

/-- Association-list insert-or-overwrite, modelling Python
`dict[key] = value`. -/
def aupdate {α : Type} : List (Str × α) → Str → α → List (Str × α)
  | [], key, v => [(key, v)]
  | (k, w) :: rest, key, v =>
    if k = key then (k, v) :: rest else (k, w) :: aupdate rest key v

/-- Association-list removal, modelling Python `dict.pop(key, None)`. -/
def aerase {α : Type} : List (Str × α) → Str → List (Str × α)
  | [], _ => []
  | (k, w) :: rest, key => if k = key then rest else (k, w) :: aerase rest key

/-- Error classification of `DnsMadeEasyClient._request` (lines 87-93):
status 400 raises BadRequest, 401/403 raise Unauthorized, 404 raises
NotFound, and `raise_for_status` raises a generic HTTPError for any other
4xx/5xx status. -/
inductive ReqError where
  | badRequest : ReqError
  | unauthorized : ReqError
  | notFound : ReqError
  | httpError : Nat → ReqError
deriving DecidableEq, Repr

/-- Outcome of one `DnsMadeEasyClient._request` call: the exception
raised (if any) and the list of `sleep` durations executed, in order. -/
structure ReqResult where
  error : Option ReqError
  slept : List Nat
deriving DecidableEq, Repr

/-- Embeds `DnsMadeEasyClient._request` (lines 77-95) as a function of the
response status code.  The HMAC signing and the HTTP transport are
external; what remains is the status classification followed by
`sleep(self.ratelimit_delay)` and the return.  The ratelimit delay is
modelled as a `Nat` (its arithmetic is never used). -/
def client_request (ratelimit_delay : Nat) (status : Nat) : ReqResult :=
  if status = 400 then ⟨some ReqError.badRequest, []⟩
  else if status = 401 ∨ status = 403 then ⟨some ReqError.unauthorized, []⟩
  else if status = 404 then ⟨some ReqError.notFound, []⟩
  else if 400 ≤ status ∧ status < 600 then ⟨some (ReqError.httpError status), []⟩
  else ⟨none, [ratelimit_delay]⟩

/-- Result of `DnsMadeEasyClient.domain_create` (lines 114-117): the new
contents of the domain-id cache `self.domains` and the value returned to
the caller. -/
structure DomainCreateOut where
  domains : List (Str × Nat)
  ret : Option Nat
deriving DecidableEq, Repr

/-- Embeds `DnsMadeEasyClient.domain_create` (lines 114-117): issues the
POST (its response id is the input `response_id`), then writes the id
into the domain-id cache under the dot-terminated name.  The Python
function body has no return statement, so the caller receives `None`. -/
def domain_create (domains : List (Str × Nat)) (name : Str) (response_id : Nat) :
    DomainCreateOut :=
  ⟨aupdate domains (name ++ ['.']) response_id, none⟩

/-- The provider's native record representation returned by
`GET /domainId/records` (the fields the code touches). -/
structure WireRecord where
  id : Nat
  name : Str
  rtype : Str
  value : Str
  ttl : Nat
deriving DecidableEq, Repr

/-- The alias-like types whose relative values get absolutized in
`DnsMadeEasyClient.records` (line 137). -/
def aliasValueTypes : List Str :=
  [str "ALIAS", str "CNAME", str "MX", str "NS", str "SRV"]

/-- Embeds the per-record post-processing loop of
`DnsMadeEasyClient.records` (lines 130-142): an ANAME type is rewritten
to ALIAS; then for alias-like types an empty value becomes the zone name
and a value without a trailing dot gets `.` and the zone name appended. -/
def postprocess_record (zone_name : Str) (r : WireRecord) : WireRecord :=
  let r1 := if r.rtype = str "ANAME" then { r with rtype := str "ALIAS" } else r
  let v := r1.value
  if r1.rtype ∈ aliasValueTypes then
    if v = [] then { r1 with value := zone_name }
    else if v.getLast? ≠ some '.' then { r1 with value := v ++ '.' :: zone_name }
    else r1
  else r1

/-- Embeds `DnsMadeEasyClient.records` (lines 119-143): the domain id is
looked up with `self.domains.get(zone_name, False)`; a missing zone (and,
by Python falsiness, a zone with id 0) short-circuits to `[]`; otherwise
the fetched response data (input `fetched`) is post-processed per
record. -/
def records (domains : List (Str × Nat)) (zone_name : Str)
    (fetched : List WireRecord) : List WireRecord :=
  match alookup domains zone_name with
  | none => []
  | some zid => if zid = 0 then [] else fetched.map (postprocess_record zone_name)

/-- Embeds `range(0, stop, step)` from Python (as used by
`_batch_records`, line 168), for positive step.  Python raises on
`step = 0`; that case never occurs here and is mapped to `[]`. -/
def pyRange (stop step : Nat) (start : Nat) : List Nat :=
  if _h : 0 < step ∧ start < stop then start :: pyRange stop step (start + step)
  else []
termination_by stop - start
decreasing_by omega

/-- Embeds `DnsMadeEasyClient._batch_records` (lines 167-169): the slices
`records[i : i + batch_size]` for `i` in `range(0, len(records),
batch_size)`. -/
def batch_records {α : Type} (batch_size : Nat) (l : List α) : List (List α) :=
  (pyRange l.length batch_size 0).map (fun i => (l.drop i).take batch_size)

/-- One record-creation parameter object (a Python dict built by the
`_params_for_*` generators; only the fields `record_multi_create`
touches are explicit, the others are payload). -/
structure CreateParam where
  rtype : Str
  name : Str
  ttl : Nat
  value : Str
  gtdLocation : Option Str
deriving DecidableEq, Repr

/-- The per-record rewrite in `DnsMadeEasyClient.record_multi_create`
(lines 158-161): an ALIAS type becomes ANAME and every record is stamped
with `gtdLocation = DEFAULT`. -/
def stamp_param (p : CreateParam) : CreateParam :=
  let p1 := if p.rtype = str "ALIAS" then { p with rtype := str "ANAME" } else p
  { p1 with gtdLocation := some (str "DEFAULT") }

/-- One HTTP request issued by the client during apply, as a trace
event. -/
inductive ApiEvent where
  | getDomain : Str → ApiEvent
  | postDomainCreate : Str → ApiEvent
  | deleteBatch : Str → List Nat → ApiEvent
  | createBatch : Str → List CreateParam → ApiEvent
deriving DecidableEq, Repr

/-- Embeds `DnsMadeEasyClient.record_multi_delete` (lines 145-151): one
DELETE request per batch of ids, in batch order. -/
def record_multi_delete_events (zone_name : Str) (batch_size : Nat)
    (record_ids : List Nat) : List ApiEvent :=
  (batch_records batch_size record_ids).map (fun b => ApiEvent.deleteBatch zone_name b)

/-- Embeds `DnsMadeEasyClient.record_multi_create` (lines 153-165): every
record is rewritten by `stamp_param` (the Python code mutates the dicts
in place before batching), then one POST request per batch, in batch
order. -/
def record_multi_create_events (zone_name : Str) (batch_size : Nat)
    (recs : List CreateParam) : List ApiEvent :=
  (batch_records batch_size (recs.map stamp_param)).map
    (fun b => ApiEvent.createBatch zone_name b)

/-- Ids carried by a bulk-delete event (`[]` for any other event). -/
def deletePayload : ApiEvent → List Nat
  | ApiEvent.deleteBatch _ ids => ids
  | _ => []

/-- Parameter objects carried by a bulk-create event (`[]` for any other
event). -/
def createPayload : ApiEvent → List CreateParam
  | ApiEvent.createBatch _ ps => ps
  | _ => []

/-- Tests whether an event is a bulk delete for the given zone. -/
def isDeleteFor (z : Str) : ApiEvent → Bool
  | ApiEvent.deleteBatch z' _ => z' = z
  | _ => false

/-- Tests whether an event is a bulk create for the given zone. -/
def isCreateFor (z : Str) : ApiEvent → Bool
  | ApiEvent.createBatch z' _ => z' = z
  | _ => false

/-- Embeds `value.replace(';', '\;')` from
`DnsMadeEasyProvider._data_for_TXT` (line 238): Python `str.replace`
scans left to right, replacing each occurrence of the one-character
pattern `;` with `\;`. -/
def escapeSemicolons : Str → Str
  | [] => []
  | ';' :: rest => '\\' :: ';' :: escapeSemicolons rest
  | c :: rest => c :: escapeSemicolons rest

/-- Embeds `value.replace('\;', ';')` from
`DnsMadeEasyProvider._params_for_TXT` (line 410): Python `str.replace`
scans left to right, replacing each non-overlapping occurrence of the
two-character pattern `\;` with `;`. -/
def unescapeSemicolons : Str → Str
  | '\\' :: ';' :: rest => ';' :: unescapeSemicolons rest
  | c :: rest => c :: unescapeSemicolons rest
  | [] => []

/-- Embeds `TXT_RECORD_VALUE_DELIMITER_PATTERN.sub('', s)` (lines
184 and 237), the removal of every pair of double quotes that is not
preceded by a backslash.  The scan carries two booleans mirroring the
regex engine state on the original text: `prevB` records whether the
character just before the current position is a backslash (the negated
lookbehind), and `pending` records an unescaped `"` that has been read
but whose pairing with the next character is still undecided.  `re.sub`
finds leftmost non-overlapping matches, and the lookbehind examines the
original string, so after a removed pair the preceding character is the
consumed `"`, never a backslash. -/
def stripGo : Bool → Bool → Str → Str
  | _, false, [] => []
  | _, true, [] => ['\"']
  | prevB, false, c :: rest =>
    if c = '\"' then
      if prevB then '\"' :: stripGo false false rest
      else stripGo false true rest
    else c :: stripGo (c = '\\') false rest
  | _, true, c :: rest =>
    if c = '\"' then stripGo false false rest
    else '\"' :: c :: stripGo (c = '\\') false rest

/-- The delimiter-removal regex applied to a whole value (no previous
character at the start of the string, so the lookbehind fails there). -/
def stripTxtDelimiters (s : Str) : Str := stripGo false false s

/-- Embeds the value transformation of `DnsMadeEasyProvider._data_for_TXT`
(lines 236-241): escape semicolons, then strip the unescaped `""` chunk
delimiters. -/
def data_for_TXT_value (w : Str) : Str := stripTxtDelimiters (escapeSemicolons w)

/-- Embeds the value transformation of
`DnsMadeEasyProvider._params_for_TXT` (lines 409-412): unescape
backslash-escaped semicolons, then wrap the whole value in literal double
quotes. -/
def params_for_TXT_value (v : Str) : Str := '\"' :: (unescapeSemicolons v ++ ['\"'])

/-- Every semicolon in the string is immediately preceded by a
backslash (the octodns convention for abstract TXT values). -/
def semisEscaped : Str → Bool
  | [] => true
  | ';' :: _ => false
  | '\\' :: ';' :: rest => semisEscaped rest
  | _ :: rest => semisEscaped rest

/-- The lookbehind state after scanning a list of characters: whether the
last character is a backslash (or the inherited state for an empty
list). -/
def prevAfter (p : Bool) : Str → Bool
  | [] => p
  | c :: rest => prevAfter (c = '\\') rest

/-- One abstract CAA value (flags, tag, value) as held by the record
model. -/
structure CaaValue where
  flags : Nat
  tag : Str
  value : Str
deriving DecidableEq, Repr

/-- The parameter object built by `DnsMadeEasyProvider._params_for_CAA`
(lines 418-427) for one CAA value. -/
structure CaaParam where
  value : Str
  issuerCritical : Nat
  name : Str
  caaType : Str
  ttl : Nat
  rtype : Str
deriving DecidableEq, Repr

/-- Embeds `DnsMadeEasyProvider._params_for_CAA` (lines 418-427) for one
value: the wire value is `value.value` verbatim (no quotes are added),
flags map to `issuerCritical` and the tag to `caaType`. -/
def params_for_CAA_value (rec_name : Str) (rec_ttl : Nat) (v : CaaValue) : CaaParam :=
  ⟨v.value, v.flags, rec_name, v.tag, rec_ttl, str "CAA"⟩

/-- The fields of a remote CAA record that
`DnsMadeEasyProvider._data_for_CAA` reads. -/
structure CaaWire where
  issuerCritical : Nat
  caaType : Str
  value : Str
  ttl : Nat
deriving DecidableEq, Repr

/-- Embeds `DnsMadeEasyProvider._data_for_CAA` (lines 222-231) for one
record: `record['value'][1:-1]` strips the first and last character
(Python slicing yields `''` for strings of length at most 2). -/
def data_for_CAA_value (r : CaaWire) : CaaValue :=
  ⟨r.issuerCritical, r.caaType, (r.value.drop 1).dropLast⟩

/-- The remote record a created CAA parameter object comes back as when
the provider stores the submitted fields verbatim (one write-then-read
cycle). -/
def caaWireOfParam (p : CaaParam) : CaaWire :=
  ⟨p.issuerCritical, p.caaType, p.value, p.ttl⟩

/-- An abstract record of the desired zone as
`DnsMadeEasyProvider._process_desired_zone` sees it (name, type and its
list of values). -/
structure ZoneRecord where
  name : Str
  rtype : Str
  values : List Str
  ttl : Nat
deriving DecidableEq, Repr

/-- Embeds `v.replace('"', '')` from
`DnsMadeEasyProvider._process_desired_zone` (line 350): every double
quote is removed. -/
def removeQuotes : Str → Str
  | [] => []
  | '\"' :: rest => removeQuotes rest
  | c :: rest => c :: removeQuotes rest

/-- The guard of `DnsMadeEasyProvider._process_desired_zone` (line 345):
a TXT record some value of which contains a literal double quote. -/
def txtViolates (r : ZoneRecord) : Bool :=
  r.rtype = str "TXT" ∧ r.values.any (fun v => '\"' ∈ v)

/-- Embeds `DnsMadeEasyProvider._process_desired_zone` (lines 343-353)
over the desired records.  `none` models the SupportsException raised by
`supports_warn_or_except` in strict mode; in lenient mode that call only
warns, and the record is replaced (via `add_record(..., replace=True)`)
by a copy whose values have all double quotes removed. -/
def process_desired_zone (strict : Bool) : List ZoneRecord → Option (List ZoneRecord)
  | [] => some []
  | r :: rest =>
    if txtViolates r then
      if strict then none
      else
        match process_desired_zone strict rest with
        | none => none
        | some rest' => some ({ r with values := r.values.map removeQuotes } :: rest')
    else
      match process_desired_zone strict rest with
      | none => none
      | some rest' => some (r :: rest')

/-- Embeds `DnsMadeEasyProvider.zone_records` (lines 273-277): on a cache
miss the client listing (input `fetched`) is stored under the zone name;
the cached listing is returned either way. -/
def zone_records (cache : List (Str × List WireRecord)) (zone_name : Str)
    (fetched : List WireRecord) : List (Str × List WireRecord) × List WireRecord :=
  match alookup cache zone_name with
  | some recs => (cache, recs)
  | none => (aupdate cache zone_name fetched, fetched)

/-- Embeds the cache behaviour of `DnsMadeEasyProvider.populate` (lines
279-316): `zone_records` is called unconditionally (line 288), then
`exists = zone.name in self._zone_records` (line 310) is returned.  The
grouping of records and the `Record.new` / `zone.add_record` calls in
between build the external zone object and touch neither the cache nor
the existence flag, so they are not modelled. -/
def populate (cache : List (Str × List WireRecord)) (zone_name : Str)
    (fetched : List WireRecord) : List (Str × List WireRecord) × Bool :=
  let out := zone_records cache zone_name fetched
  (out.1, (alookup out.1 zone_name).isSome)

/-- The per-change output of `_mod_Create` / `_mod_Delete` /
`_mod_Update` (lines 429-452): a zone name, remote ids to delete and
parameter objects to create.  (`_mod_Create` has empty deletions,
`_mod_Delete` empty creations, `_mod_Update` both parts.) -/
structure ModTriple where
  zone : Str
  deletions : List Nat
  creations : List CreateParam
deriving DecidableEq, Repr

/-- One step of the accumulation loop of `DnsMadeEasyProvider._apply`
(lines 471-484): a zone already seen has its deletion and creation lists
extended in place, a new zone is appended (Python dicts preserve
insertion order). -/
def add_triple (acc : List ModTriple) (t : ModTriple) : List ModTriple :=
  if acc.any (fun u => u.zone = t.zone) then
    acc.map (fun u =>
      if u.zone = t.zone then
        ⟨u.zone, u.deletions ++ t.deletions, u.creations ++ t.creations⟩
      else u)
  else acc ++ [t]

/-- The accumulation loop of `DnsMadeEasyProvider._apply` (lines
468-484): fold the per-change triples into one deletion list and one
creation list per zone. -/
def accum_ops (mods : List ModTriple) : List ModTriple := mods.foldl add_triple []

/-- The requests issued for one zone by the operations loop of
`DnsMadeEasyProvider._apply` (lines 487-495): the bulk delete (if any
deletions accumulated) followed by the bulk create (if any creations
accumulated). -/
def zone_events (batch_size : Nat) (t : ModTriple) : List ApiEvent :=
  (if t.deletions.isEmpty then []
   else record_multi_delete_events t.zone batch_size t.deletions)
  ++ (if t.creations.isEmpty then []
      else record_multi_create_events t.zone batch_size t.creations)

/-- Provider-side state touched by `_apply`: the client's domain-id cache
and the provider's per-zone record cache. -/
structure ApplyState where
  domains : List (Str × Nat)
  zoneRecords : List (Str × List WireRecord)
deriving DecidableEq, Repr

/-- Outcome of the `self._client.domain(domain_name)` existence probe in
`_apply` (lines 462-466): success, the NotFound exception, or any other
request error. -/
inductive FetchOutcome where
  | found : FetchOutcome
  | notFound : FetchOutcome
  | otherError : ReqError → FetchOutcome
deriving DecidableEq, Repr

/-- Embeds `DnsMadeEasyProvider._apply` (lines 454-498).  `desired_name`
is the dot-terminated zone name; the probe queries `desired.name[:-1]`.
On NotFound the domain is created via `domain_create` (whose response id
is the input `created_id`), which registers the id in the domain-id
cache; any other probe error propagates unchanged.  The per-change
triples (input `mods`, the outputs of the `_mod_*` dispatch) are
accumulated per zone, the per-zone requests are issued, and finally the
zone's cached record listing is dropped
(`self._zone_records.pop(desired.name, None)`). -/
def apply_plan (batch_size : Nat) (st : ApplyState) (desired_name : Str)
    (fetch : FetchOutcome) (created_id : Nat) (mods : List ModTriple) :
    Except ReqError (List ApiEvent × ApplyState) :=
  let dn := desired_name.dropLast
  let ops := (accum_ops mods).flatMap (zone_events batch_size)
  match fetch with
  | FetchOutcome.otherError e => Except.error e
  | FetchOutcome.found =>
    Except.ok (ApiEvent.getDomain dn :: ops,
      ⟨st.domains, aerase st.zoneRecords desired_name⟩)
  | FetchOutcome.notFound =>
    Except.ok (ApiEvent.getDomain dn :: ApiEvent.postDomainCreate dn :: ops,
      ⟨(domain_create st.domains dn created_id).domains,
        aerase st.zoneRecords desired_name⟩)

/-- Unfolding lemma for the range: one slice step. -/
theorem pyRange_pos (stop step start : Nat) (h1 : 0 < step) (h2 : start < stop) :
    pyRange stop step start = start :: pyRange stop step (start + step) := by
  rw [pyRange]
  simp [h1, h2]

/-- Unfolding lemma for the range: the empty case. -/
theorem pyRange_end (stop step start : Nat) (h : stop ≤ start) :
    pyRange stop step start = [] := by
  rw [pyRange]
  have : ¬ (0 < step ∧ start < stop) := by omega
  simp [this]

/-- The range `range(start, stop, step)` has exactly
`ceil((stop - start) / step)` elements. -/
theorem pyRange_length (stop step : Nat) (hstep : 0 < step) :
    ∀ start, (pyRange stop step start).length = (stop - start + step - 1) / step := by
  have main : ∀ n start, stop - start ≤ n →
      (pyRange stop step start).length = (stop - start + step - 1) / step := by
    intro n
    induction n with
    | zero =>
      intro start h
      rw [pyRange_end stop step start (by omega)]
      have h0 : stop - start = 0 := by omega
      rw [h0]
      simp only [List.length_nil]
      exact (Nat.div_eq_of_lt (by omega)).symm
    | succ n ih =>
      intro start h
      by_cases hlt : start < stop
      · rw [pyRange_pos stop step start hstep hlt]
        have hrec := ih (start + step) (by omega)
        simp only [List.length_cons, hrec]
        have ha : stop - start + step - 1 = (stop - start - 1) + step := by omega
        rw [ha, Nat.add_div_right _ hstep]
        have hsplit : stop - (start + step) + step - 1 = if step ≤ stop - start
            then stop - start - 1 else step - 1 := by
          split <;> omega
        rw [hsplit]
        split
        · omega
        · have l1 : stop - start - 1 < step := by omega
          have l2 : step - 1 < step := by omega
          rw [Nat.div_eq_of_lt l1, Nat.div_eq_of_lt l2]
      · rw [pyRange_end stop step start (by omega)]
        have h0 : stop - start = 0 := by omega
        rw [h0]
        simp only [List.length_nil]
        exact (Nat.div_eq_of_lt (by omega)).symm
  intro start
  exact main (stop - start) start (Nat.le_refl _)

/-- The slices drawn along the range, concatenated, recover the suffix of
the list from the starting offset. -/
theorem pyRange_slices_join {α : Type} (bs : Nat) (hbs : 0 < bs) (l : List α) :
    ∀ start,
      ((pyRange l.length bs start).map (fun i => (l.drop i).take bs)).flatten
        = l.drop start := by
  have main : ∀ n start, l.length - start ≤ n →
      ((pyRange l.length bs start).map (fun i => (l.drop i).take bs)).flatten
        = l.drop start := by
    intro n
    induction n with
    | zero =>
      intro start h
      rw [pyRange_end _ bs start (by omega)]
      simp [List.drop_eq_nil_of_le (by omega : l.length ≤ start)]
    | succ n ih =>
      intro start h
      by_cases hlt : start < l.length
      · rw [pyRange_pos _ bs start hbs hlt]
        simp only [List.map_cons, List.flatten_cons]
        rw [ih (start + bs) (by omega)]
        have hdd : l.drop (start + bs) = (l.drop start).drop bs := by
          rw [List.drop_drop]
        rw [hdd, List.take_append_drop]
      · rw [pyRange_end _ bs start (by omega)]
        simp [List.drop_eq_nil_of_le (by omega : l.length ≤ start)]
  intro start
  exact main (l.length - start) start (Nat.le_refl _)

/-- The elements of the range are `start + i * step`, in order. -/
theorem pyRange_getElem? (stop step : Nat) (hstep : 0 < step) :
    ∀ i start, (pyRange stop step start).get? i
      = if start + i * step < stop then some (start + i * step) else none := by
  intro i
  induction i with
  | zero =>
    intro start
    by_cases hlt : start < stop
    · rw [pyRange_pos stop step start hstep hlt]
      simp [hlt]
    · rw [pyRange_end stop step start (by omega)]
      simp [hlt]
  | succ i ih =>
    intro start
    by_cases hlt : start < stop
    · rw [pyRange_pos stop step start hstep hlt]
      simp only [List.get?_cons_succ, ih (start + step)]
      have hm : start + (i + 1) * step = start + step + i * step := by
        rw [Nat.add_mul, Nat.one_mul]
        omega
      rw [hm]
    · rw [pyRange_end stop step start (by omega)]
      have hcond : ¬ (start + (i + 1) * step < stop) := by
        have hge : start ≤ start + (i + 1) * step := Nat.le_add_right _ _
        omega
      simp [hcond]

/-- `_batch_records` produces exactly `ceil(n / batch_size)` batches. -/
theorem batch_records_length {α : Type} (bs : Nat) (hbs : 0 < bs) (l : List α) :
    (batch_records bs l).length = (l.length + bs - 1) / bs := by
  unfold batch_records
  rw [List.length_map, pyRange_length l.length bs hbs 0]
  simp

/-- The batches of `_batch_records`, concatenated, are exactly the input
list: no duplication, no omission, order preserved. -/
theorem batch_records_flatten {α : Type} (bs : Nat) (hbs : 0 < bs) (l : List α) :
    (batch_records bs l).flatten = l := by
  unfold batch_records
  rw [pyRange_slices_join bs hbs l 0]
  simp

/-- The `i`-th batch of `_batch_records` is the contiguous slice
`l[i * bs : i * bs + bs]`. -/
theorem batch_records_get? {α : Type} (bs : Nat) (hbs : 0 < bs) (l : List α) (i : Nat) :
    (batch_records bs l).get? i
      = if i * bs < l.length then some ((l.drop (i * bs)).take bs) else none := by
  unfold batch_records
  rw [List.get?_map, pyRange_getElem? l.length bs hbs i 0]
  by_cases h : i * bs < l.length
  · have h0 : 0 + i * bs = i * bs := Nat.zero_add _
    rw [h0]
    simp [h]
  · have h0 : 0 + i * bs = i * bs := Nat.zero_add _
    rw [h0]
    simp [h]

/-- Looking up the key just written by `aupdate` yields the new value. -/
theorem alookup_aupdate_self {α : Type} (m : List (Str × α)) (k : Str) (v : α) :
    alookup (aupdate m k v) k = some v := by
  induction m with
  | nil => simp [aupdate, alookup]
  | cons p rest ih =>
    obtain ⟨k0, w⟩ := p
    by_cases h : k0 = k
    · simp [aupdate, alookup, h]
    · simp [aupdate, alookup, h, ih]

/-- A key absent from an association list looks up to `none`. -/
theorem alookup_eq_none {α : Type} (m : List (Str × α)) (k : Str)
    (h : k ∉ m.map Prod.fst) : alookup m k = none := by
  induction m with
  | nil => rfl
  | cons p rest ih =>
    obtain ⟨k0, w⟩ := p
    simp only [List.map_cons, List.mem_cons] at h
    push_neg at h
    have hne : k0 ≠ k := fun he => h.1 he.symm
    simp [alookup, hne, ih h.2]

/-- On an association list with unique keys, `aerase` removes the key. -/
theorem alookup_aerase_self {α : Type} (m : List (Str × α)) (k : Str)
    (hnd : (m.map Prod.fst).Nodup) : alookup (aerase m k) k = none := by
  induction m with
  | nil => rfl
  | cons p rest ih =>
    obtain ⟨k0, w⟩ := p
    simp only [List.map_cons, List.nodup_cons] at hnd
    by_cases h : k0 = k
    · simp only [aerase, if_pos h]
      subst h
      exact alookup_eq_none rest k0 hnd.1
    · simp [aerase, alookup, h, ih hnd.2]

/-- `aerase` leaves every other key untouched. -/
theorem alookup_aerase_other {α : Type} (m : List (Str × α)) (k k' : Str)
    (h : k' ≠ k) : alookup (aerase m k) k' = alookup m k' := by
  induction m with
  | nil => rfl
  | cons p rest ih =>
    obtain ⟨k0, w⟩ := p
    by_cases h0 : k0 = k
    · subst h0
      have hne : k0 ≠ k' := fun he => h he.symm
      simp [aerase, alookup, hne]
    · by_cases h1 : k0 = k'
      · simp [aerase, alookup, h0, h1, h]
      · simp [aerase, alookup, h0, h1, h, ih]

/-- Claim C2: for id lists (bulk delete) and parameter-object lists (bulk
create) longer than the configured batch size, the bulk operations issue
exactly `ceil(n / batch_size)` sequential requests; the `i`-th request
carries the contiguous slice starting at offset `i * batch_size` (so each
request preserves the relative order of its elements), and the payloads
of all requests concatenate back to exactly the processed input list —
no duplication, no omission.  (For creates the processed list is the
input after the in-place ALIAS-to-ANAME / gtdLocation rewrite that
`record_multi_create` performs before batching; it is the same list
object, element for element, in order.) -/
theorem c2_bulk_batching (zone : Str) (bs : Nat) (ids : List Nat)
    (ps : List CreateParam) (hbs : 0 < bs) (hids : bs < ids.length)
    (hps : bs < ps.length) :
    (record_multi_delete_events zone bs ids).length = (ids.length + bs - 1) / bs
    ∧ ((record_multi_delete_events zone bs ids).map deletePayload).flatten = ids
    ∧ (∀ i, (record_multi_delete_events zone bs ids).get? i
        = if i * bs < ids.length
          then some (ApiEvent.deleteBatch zone ((ids.drop (i * bs)).take bs))
          else none)
    ∧ (record_multi_create_events zone bs ps).length = (ps.length + bs - 1) / bs
    ∧ ((record_multi_create_events zone bs ps).map createPayload).flatten
        = ps.map stamp_param
    ∧ (∀ i, (record_multi_create_events zone bs ps).get? i
        = if i * bs < ps.length
          then some (ApiEvent.createBatch zone
            (((ps.map stamp_param).drop (i * bs)).take bs))
          else none) := by
  refine ⟨?_, ?_, ?_, ?_, ?_, ?_⟩
  · unfold record_multi_delete_events
    rw [List.length_map, batch_records_length bs hbs ids]
  · unfold record_multi_delete_events
    rw [List.map_map]
    have hid : (deletePayload ∘ fun b => ApiEvent.deleteBatch zone b) = id := by
      funext b
      rfl
    rw [hid, List.map_id]
    exact batch_records_flatten bs hbs ids
  · intro i
    unfold record_multi_delete_events
    rw [List.get?_map, batch_records_get? bs hbs ids i]
    by_cases h : i * bs < ids.length <;> simp [h]
  · unfold record_multi_create_events
    rw [List.length_map, batch_records_length bs hbs (ps.map stamp_param)]
    rw [List.length_map]
  · unfold record_multi_create_events
    rw [List.map_map]
    have hid : (createPayload ∘ fun b => ApiEvent.createBatch zone b) = id := by
      funext b
      rfl
    rw [hid, List.map_id]
    exact batch_records_flatten bs hbs (ps.map stamp_param)
  · intro i
    unfold record_multi_create_events
    rw [List.get?_map, batch_records_get? bs hbs (ps.map stamp_param) i]
    rw [List.length_map]
    by_cases h : i * bs < ps.length <;> simp [h]

/-- Concrete instance of C2: batch size 2, five ids and three creation
parameter objects. -/
theorem c2_bulk_batching_witness :
    ((record_multi_delete_events (str "unit.tests.") 2 [1, 2, 3, 4, 5]).map
        deletePayload).flatten = [1, 2, 3, 4, 5]
    ∧ ((record_multi_create_events (str "unit.tests.") 2
        [⟨str "A", str "", 300, str "1.2.3.4", none⟩,
         ⟨str "ALIAS", str "", 1800, str "aname.unit.tests.", none⟩,
         ⟨str "AAAA", str "aaaa", 600, str "fe80::1", none⟩]).map
        createPayload).flatten
      = [⟨str "A", str "", 300, str "1.2.3.4", none⟩,
         ⟨str "ALIAS", str "", 1800, str "aname.unit.tests.", none⟩,
         ⟨str "AAAA", str "aaaa", 600, str "fe80::1", none⟩].map stamp_param := by
  have h := c2_bulk_batching (str "unit.tests.") 2 [1, 2, 3, 4, 5]
    [⟨str "A", str "", 300, str "1.2.3.4", none⟩,
     ⟨str "ALIAS", str "", 1800, str "aname.unit.tests.", none⟩,
     ⟨str "AAAA", str "aaaa", 600, str "fe80::1", none⟩]
    (by decide) (by decide) (by decide)
  exact ⟨h.2.1, h.2.2.2.2.1⟩

/-- Claim C5 as stated is false: the write path
(`_params_for_CAA`) emits the abstract value verbatim, with no
surrounding quotes re-added, while the read path (`_data_for_CAA`)
strips the first and last character; a write-then-read cycle on the
two-character value `ab` therefore yields the empty value, not the
original. -/
theorem c5_caa_roundtrip_counterexample :
    data_for_CAA_value (caaWireOfParam
        (params_for_CAA_value (str "") 3600 ⟨0, str "issue", str "ab"⟩))
      ≠ ⟨0, str "issue", str "ab"⟩ := by decide

/-- Claim C5, amended: the write path emits the abstract CAA value
unchanged (no quotes are added); the read path strips the first and last
character of the wire value, so it is a left inverse of quote-wrapping
(reading a quote-wrapped value recovers the value, with flags and tag
preserved); consequently one write-then-read cycle is not the identity
but removes the first and last character of the abstract value. -/
theorem c5_caa_roundtrip_amended (rec_name : Str) (rec_ttl : Nat)
    (v : CaaValue) (w : CaaWire) :
    (params_for_CAA_value rec_name rec_ttl v).value = v.value
    ∧ (params_for_CAA_value rec_name rec_ttl v).issuerCritical = v.flags
    ∧ (params_for_CAA_value rec_name rec_ttl v).caaType = v.tag
    ∧ data_for_CAA_value ⟨w.issuerCritical, w.caaType,
        '\"' :: (w.value ++ ['\"']), w.ttl⟩
      = ⟨w.issuerCritical, w.caaType, w.value⟩
    ∧ data_for_CAA_value (caaWireOfParam (params_for_CAA_value rec_name rec_ttl v))
      = ⟨v.flags, v.tag, (v.value.drop 1).dropLast⟩ := by
  refine ⟨rfl, rfl, rfl, ?_, rfl⟩
  unfold data_for_CAA_value
  simp

/-- Claim C6 as stated is false: on an error status the classification
raises before the `sleep` call is reached, so no sleep happens.  A 404
response raises NotFound with an empty sleep trace. -/
theorem c6_ratelimit_sleep_counterexample :
    (client_request 5 404).slept = []
    ∧ (client_request 5 404).error = some ReqError.notFound := by decide

/-- Claim C6, amended: the client sleeps for the configured
ratelimit delay before returning only when the response status is not an
error status (400-599); for an error status the corresponding exception
propagates before the sleep line is reached, so no sleep occurs. -/
theorem c6_ratelimit_sleep_amended (delay status : Nat) :
    (status < 400 ∨ 600 ≤ status → client_request delay status = ⟨none, [delay]⟩)
    ∧ (400 ≤ status → status < 600 →
        (client_request delay status).slept = []
        ∧ (client_request delay status).error ≠ none) := by
  constructor
  · intro h
    have h1 : ¬ status = 400 := by omega
    have h2 : ¬ (status = 401 ∨ status = 403) := by omega
    have h3 : ¬ status = 404 := by omega
    have h4 : ¬ (400 ≤ status ∧ status < 600) := by omega
    simp [client_request, h1, h2, h3, h4]
  · intro hlo hhi
    by_cases e1 : status = 400
    · simp [client_request, e1]
    · by_cases e2 : status = 401 ∨ status = 403
      · simp [client_request, e1, e2]
      · by_cases e3 : status = 404
        · simp [client_request, e1, e2, e3]
        · have e4 : 400 ≤ status ∧ status < 600 := ⟨hlo, hhi⟩
          simp [client_request, e1, e2, e3, e4]

/-- Concrete instance of the amended C6: a 200 response sleeps once for
the configured delay; a 500 response raises without sleeping. -/
theorem c6_ratelimit_sleep_amended_witness :
    client_request 7 200 = ⟨none, [7]⟩ ∧ (client_request 7 500).slept = [] := by
  exact ⟨(c6_ratelimit_sleep_amended 7 200).1 (Or.inl (by decide)),
    ((c6_ratelimit_sleep_amended 7 500).2 (by decide) (by decide)).1⟩

/-- Claim C7 as stated is false: `domain_create` has no return statement
(the caller receives `None`, not the new id), and it is `domain_create`
itself, not the caller, that writes the new id into the domain-id cache
(under the dot-terminated name). -/
theorem c7_domain_create_counterexample :
    (domain_create [] (str "unit.tests") 424242).ret ≠ some 424242
    ∧ alookup (domain_create [] (str "unit.tests") 424242).domains
        (str "unit.tests.") = some 424242 := by decide

/-- Claim C7, amended: the client's domain-create operation creates the
domain and itself registers the provider-assigned id in the domain-id
cache under the dot-terminated zone name; it returns nothing (`None`),
so the caller neither receives the id nor needs to update the cache. -/
theorem c7_domain_create_amended (domains : List (Str × Nat)) (name : Str)
    (rid : Nat) :
    (domain_create domains name rid).ret = none
    ∧ alookup (domain_create domains name rid).domains (name ++ ['.'])
        = some rid := by
  exact ⟨rfl, alookup_aupdate_self domains (name ++ ['.']) rid⟩

/-- Claim C9: listing records of a zone that is absent from the
domain-name-to-id mapping returns the empty list and raises no error. -/
theorem c9_unknown_zone_records (domains : List (Str × Nat)) (zone_name : Str)
    (fetched : List WireRecord) (h : alookup domains zone_name = none) :
    records domains zone_name fetched = [] := by
  unfold records
  rw [h]

/-- Concrete instance of C9: an unknown zone with a non-empty fetched
payload still yields the empty listing. -/
theorem c9_unknown_zone_records_witness :
    records [(str "other.zone.", 1)] (str "unit.tests.")
      [⟨1, str "www", str "A", str "1.2.3.4", 300⟩] = [] :=
  c9_unknown_zone_records [(str "other.zone.", 1)] (str "unit.tests.")
    [⟨1, str "www", str "A", str "1.2.3.4", 300⟩] (by decide)

/-- Claim C10: `populate` returns `True` for every zone, known or not:
`zone_records` unconditionally stores the fetched listing (possibly
empty) in the per-zone cache before `populate` checks membership, so the
existence check always succeeds. -/
theorem c10_populate_always_exists (cache : List (Str × List WireRecord))
    (zone_name : Str) (fetched : List WireRecord) :
    (populate cache zone_name fetched).2 = true := by
  unfold populate zone_records
  cases hc : alookup cache zone_name with
  | some recs => simp [hc]
  | none => simp [alookup_aupdate_self]

/-- Characterization of the type rewrite in the `records`
post-processing: exactly ANAME becomes ALIAS, every other type is kept. -/
theorem postprocess_record_rtype (z : Str) (r : WireRecord) :
    (postprocess_record z r).rtype
      = if r.rtype = str "ANAME" then str "ALIAS" else r.rtype := by
  unfold postprocess_record
  by_cases hA : r.rtype = str "ANAME" <;>
    simp only [hA, if_true, if_false, reduceIte] <;>
    split <;>
    (try split) <;>
    (try split) <;>
    rfl

/-- Characterization of the value rewrite in the `records`
post-processing. -/
theorem postprocess_record_value (z : Str) (r : WireRecord) :
    (postprocess_record z r).value
      = if (if r.rtype = str "ANAME" then str "ALIAS" else r.rtype)
            ∈ aliasValueTypes then
          (if r.value = [] then z
           else if r.value.getLast? ≠ some '.' then r.value ++ '.' :: z
           else r.value)
        else r.value := by
  unfold postprocess_record
  by_cases hA : r.rtype = str "ANAME" <;>
    simp only [hA, if_true, if_false, reduceIte] <;>
    split <;>
    (try split) <;>
    (try split) <;>
    rfl

/-- Claim C4: for every record returned by the record listing of a known
zone, the listing is the fetched data post-processed per record; a wire
type ANAME is rewritten to ALIAS; and for a (post-rewrite) type among
ALIAS, CNAME, MX, NS, SRV, an empty value becomes the zone's
fully-qualified dot-terminated name, a non-empty value without a
trailing dot becomes `value + "." + zoneName`, and a dot-terminated
value is unchanged. -/
theorem c4_records_postprocessing (domains : List (Str × Nat)) (zone_name : Str)
    (fetched : List WireRecord) (r : WireRecord) (zid : Nat)
    (hz : alookup domains zone_name = some zid) (hz0 : zid ≠ 0) :
    records domains zone_name fetched = fetched.map (postprocess_record zone_name)
    ∧ (r.rtype = str "ANAME" → (postprocess_record zone_name r).rtype = str "ALIAS")
    ∧ ((if r.rtype = str "ANAME" then str "ALIAS" else r.rtype) ∈ aliasValueTypes →
        ((r.value = [] → (postprocess_record zone_name r).value = zone_name)
         ∧ (r.value ≠ [] → r.value.getLast? ≠ some '.' →
             (postprocess_record zone_name r).value = r.value ++ '.' :: zone_name)
         ∧ (r.value.getLast? = some '.' →
             (postprocess_record zone_name r).value = r.value))) := by
  refine ⟨?_, ?_, ?_⟩
  · unfold records
    rw [hz]
    simp [hz0]
  · intro hA
    rw [postprocess_record_rtype]
    simp [hA]
  · intro hmem
    refine ⟨?_, ?_, ?_⟩
    · intro hv
      rw [postprocess_record_value]
      simp [hmem, hv]
    · intro hv hdot
      rw [postprocess_record_value]
      simp [hmem, hv, hdot]
    · intro hdot
      have hv : ¬ r.value = [] := by
        intro he
        rw [he] at hdot
        simp at hdot
      rw [postprocess_record_value]
      simp [hmem, hv, hdot]

/-- Concrete instance of C4: an ANAME record with relative value `foo`
in zone `unit.tests.` comes back as an ALIAS record with value
`foo.unit.tests.`. -/
theorem c4_records_postprocessing_witness :
    (postprocess_record (str "unit.tests.")
        ⟨1, str "", str "ANAME", str "foo", 1800⟩).rtype = str "ALIAS"
    ∧ (postprocess_record (str "unit.tests.")
        ⟨1, str "", str "ANAME", str "foo", 1800⟩).value
      = str "foo" ++ '.' :: str "unit.tests." := by
  have h := c4_records_postprocessing [(str "unit.tests.", 123123)]
    (str "unit.tests.") [⟨1, str "", str "ANAME", str "foo", 1800⟩]
    ⟨1, str "", str "ANAME", str "foo", 1800⟩ 123123 (by decide) (by decide)
  exact ⟨h.2.1 rfl, (h.2.2 (by decide)).2.1 (by decide) (by decide)⟩

/-- Claim C8: desired-state TXT records with a double quote in some
value are flagged: in strict mode planning aborts with a
supports-violation; in lenient mode each flagged record is replaced by a
copy whose values have all double quotes removed; records without a
double quote in any value pass through unchanged (in either mode). -/
theorem c8_txt_quote_preprocessing (rs : List ZoneRecord) :
    (∀ strict, (∀ r ∈ rs, txtViolates r = false) →
        process_desired_zone strict rs = some rs)
    ∧ ((∃ r ∈ rs, txtViolates r = true) →
        process_desired_zone true rs = none)
    ∧ process_desired_zone false rs
        = some (rs.map (fun r =>
            if txtViolates r then { r with values := r.values.map removeQuotes }
            else r)) := by
  refine ⟨?_, ?_, ?_⟩
  · intro strict hok
    induction rs with
    | nil => rfl
    | cons r rest ih =>
      have hr : txtViolates r = false := hok r (List.mem_cons_self r rest)
      have hrest := ih (fun u hu => hok u (List.mem_cons_of_mem r hu))
      simp [process_desired_zone, hr, hrest]
  · intro hex
    induction rs with
    | nil =>
      obtain ⟨r, hr, _⟩ := hex
      exact absurd hr (List.not_mem_nil r)
    | cons r rest ih =>
      by_cases hv : txtViolates r = true
      · simp [process_desired_zone, hv]
      · obtain ⟨u, hu, huv⟩ := hex
        rcases List.mem_cons.mp hu with he | hm
        · rw [he] at huv
          exact absurd huv hv
        · have hrest := ih ⟨u, hm, huv⟩
          simp only [Bool.not_eq_true] at hv
          simp [process_desired_zone, hv, hrest]
  · induction rs with
    | nil => rfl
    | cons r rest ih =>
      by_cases hv : txtViolates r = true
      · simp [process_desired_zone, hv, ih]
      · simp only [Bool.not_eq_true] at hv
        simp [process_desired_zone, hv, ih]

/-- Concrete instance of C8: a TXT record whose value contains
`"quote"` aborts planning in strict mode and has its quotes stripped in
lenient mode; an A record passes through untouched. -/
theorem c8_txt_quote_preprocessing_witness :
    process_desired_zone true
      [⟨str "txt", str "TXT", [str "This has \"quote\" chars in it"], 42⟩] = none
    ∧ process_desired_zone false
      [⟨str "txt", str "TXT", [str "This has \"quote\" chars in it"], 42⟩,
       ⟨str "www", str "A", [str "1.2.3.4"], 300⟩]
      = some [⟨str "txt", str "TXT", [str "This has quote chars in it"], 42⟩,
              ⟨str "www", str "A", [str "1.2.3.4"], 300⟩] := by
  constructor
  · exact (c8_txt_quote_preprocessing
      [⟨str "txt", str "TXT", [str "This has \"quote\" chars in it"], 42⟩]).2.1
      ⟨⟨str "txt", str "TXT", [str "This has \"quote\" chars in it"], 42⟩,
        List.mem_cons_self _ _, by decide⟩
  · rw [(c8_txt_quote_preprocessing
      [⟨str "txt", str "TXT", [str "This has \"quote\" chars in it"], 42⟩,
       ⟨str "www", str "A", [str "1.2.3.4"], 300⟩]).2.2]
    decide

/-- Unfolding of the semicolon escaping over a cons cell. -/
theorem escapeSemicolons_cons (c : Char) (t : Str) :
    escapeSemicolons (c :: t)
      = if c = ';' then '\\' :: ';' :: escapeSemicolons t
        else c :: escapeSemicolons t := by
  by_cases h : c = ';'
  · subst h
    simp [escapeSemicolons]
  · simp [escapeSemicolons, h]

/-- The semicolon escaping distributes over concatenation (the pattern is
a single character). -/
theorem escapeSemicolons_append (a b : Str) :
    escapeSemicolons (a ++ b) = escapeSemicolons a ++ escapeSemicolons b := by
  induction a with
  | nil => rfl
  | cons c rest ih =>
    by_cases h : c = ';'
    · subst h
      simp [escapeSemicolons, ih]
    · simp [escapeSemicolons, h, ih]

/-- A string without semicolons is unchanged by the escaping. -/
theorem escapeSemicolons_no_semi (a : Str) (h : ';' ∉ a) :
    escapeSemicolons a = a := by
  induction a with
  | nil => rfl
  | cons c rest ih =>
    have hc : ¬ c = ';' := fun he => h (by rw [he]; exact List.mem_cons_self _ _)
    have hr : ';' ∉ rest := fun hm => h (List.mem_cons_of_mem c hm)
    simp [escapeSemicolons, hc, ih hr]

/-- On values whose semicolons are all backslash-escaped, the write-path
unescaping and the read-path escaping are mutually inverse. -/
theorem escape_unescape (v : Str) (h : semisEscaped v = true) :
    escapeSemicolons (unescapeSemicolons v) = v := by
  induction v using unescapeSemicolons.induct with
  | case1 rest ih =>
    have h' : semisEscaped rest = true := h
    simp only [unescapeSemicolons, escapeSemicolons]
    rw [ih h']
  | case2 c rest hne ih =>
    by_cases hc : c = ';'
    · subst hc
      simp [semisEscaped] at h
    · have hstep : unescapeSemicolons (c :: rest) = c :: unescapeSemicolons rest := by
        rcases rest with _ | ⟨c2, rest2⟩
        · simp [unescapeSemicolons]
        · by_cases hb : c = '\\'
          · by_cases hs : c2 = ';'
            · exact (hne rest2 hb (by rw [hs])).elim
            · simp [unescapeSemicolons, hb, hs]
          · simp [unescapeSemicolons, hb]
      have h' : semisEscaped rest = true := by
        rcases rest with _ | ⟨c2, rest2⟩
        · simp [semisEscaped]
        · by_cases hb : c = '\\'
          · by_cases hs : c2 = ';'
            · exact (hne rest2 hb (by rw [hs])).elim
            · simpa [semisEscaped, hc, hb, hs] using h
          · simpa [semisEscaped, hc, hb] using h
      rw [hstep]
      have hesc : escapeSemicolons (c :: unescapeSemicolons rest)
          = c :: escapeSemicolons (unescapeSemicolons rest) := by
        simp [escapeSemicolons, hc]
      rw [hesc, ih h']
  | case3 => rfl

/-- The delimiter scan leaves a quote-free string unchanged. -/
theorem stripGo_no_quote (s : Str) (h : '\"' ∉ s) (p : Bool) :
    stripGo p false s = s := by
  induction s generalizing p with
  | nil => rfl
  | cons c rest ih =>
    have hc : ¬ c = '\"' := fun he => h (by rw [he]; exact List.mem_cons_self _ _)
    have hr : '\"' ∉ rest := fun hm => h (List.mem_cons_of_mem c hm)
    simp [stripGo, hc, ih hr]

/-- The delimiter scan passes over a quote-free block, updating only the
lookbehind state. -/
theorem stripGo_append (a : Str) (h : '\"' ∉ a) (p : Bool) (t : Str) :
    stripGo p false (a ++ t) = a ++ stripGo (prevAfter p a) false t := by
  induction a generalizing p with
  | nil => simp [prevAfter]
  | cons c rest ih =>
    have hc : ¬ c = '\"' := fun he => h (by rw [he]; exact List.mem_cons_self _ _)
    have hr : '\"' ∉ rest := fun hm => h (List.mem_cons_of_mem c hm)
    simp [stripGo, hc, ih hr, prevAfter]

/-- A single quote at the end of the input survives the delimiter scan. -/
theorem stripGo_single_quote (p : Bool) : stripGo p false ['\"'] = ['\"'] := by
  cases p <;> simp [stripGo]

/-- An unescaped quote at the current position opens a pending match. -/
theorem stripGo_start_quote (t : Str) :
    stripGo false false ('\"' :: t) = stripGo false true t := by
  simp [stripGo]

/-- A quote after a pending quote completes the `""` match: the pair is
removed. -/
theorem stripGo_pending_quote (t : Str) :
    stripGo false true ('\"' :: t) = stripGo false false t := by
  simp [stripGo]

/-- A non-quote after a pending quote releases the pending quote. -/
theorem stripGo_pending_cons (c : Char) (t : Str) (h : ¬ c = '\"') (p : Bool) :
    stripGo p true (c :: t) = '\"' :: c :: stripGo (c = '\\') false t := by
  simp [stripGo, h]

/-- Claim C3 as stated is false: the write path wraps the TXT value in
literal double quotes and the read path never strips them, so the
write-then-read cycle on `a;b` yields `"a\;b"` (quoted, semicolon
escaped), not the original value. -/
theorem c3_txt_roundtrip_counterexample :
    data_for_TXT_value (params_for_TXT_value (str "a;b")) ≠ str "a;b" := by decide

/-- Claim C3, amended: for a non-empty TXT value that contains no double
quote and whose semicolons are all backslash-escaped, the write-then-read
cycle returns the value unchanged except for the surrounding double
quotes the write path added (the semicolon unescape on write and escape
on read cancel exactly); and for a wire value consisting of a bare `""`
delimiter between two quote-free, semicolon-free blocks, the first not
ending in a backslash, the read path removes the delimiter and preserves
the surrounding text exactly. -/
theorem c3_txt_roundtrip_amended :
    (∀ v : Str, semisEscaped v = true → '\"' ∉ v → v ≠ [] →
      data_for_TXT_value (params_for_TXT_value v) = '\"' :: (v ++ ['\"']))
    ∧ (∀ a b : Str, '\"' ∉ a → '\"' ∉ b → ';' ∉ a → ';' ∉ b →
        prevAfter false a = false →
        data_for_TXT_value (a ++ '\"' :: '\"' :: b) = a ++ b) := by
  constructor
  · intro v hse hq hne
    unfold data_for_TXT_value params_for_TXT_value stripTxtDelimiters
    rw [escapeSemicolons_cons]
    have hqs : ¬ ('\"' : Char) = ';' := by decide
    rw [if_neg hqs, escapeSemicolons_append, escape_unescape v hse]
    have hone : escapeSemicolons ['\"'] = ['\"'] := by
      rw [escapeSemicolons_cons, if_neg hqs]
      rfl
    rw [hone]
    rcases v with _ | ⟨c0, v'⟩
    · exact absurd rfl hne
    · have hc0 : ¬ c0 = '\"' := fun he => hq (by rw [he]; exact List.mem_cons_self _ _)
      have hv' : '\"' ∉ v' := fun hm => hq (List.mem_cons_of_mem c0 hm)
      rw [stripGo_start_quote]
      have : (c0 :: v') ++ ['\"'] = c0 :: (v' ++ ['\"']) := rfl
      rw [this, stripGo_pending_cons c0 (v' ++ ['\"']) hc0 false,
        stripGo_append v' hv', stripGo_single_quote]
  · intro a b hqa hqb hsa hsb hpa
    unfold data_for_TXT_value stripTxtDelimiters
    rw [escapeSemicolons_append, escapeSemicolons_no_semi a hsa]
    have hqs : ¬ ('\"' : Char) = ';' := by decide
    rw [escapeSemicolons_cons, if_neg hqs, escapeSemicolons_cons, if_neg hqs,
      escapeSemicolons_no_semi b hsb]
    rw [stripGo_append a hqa, hpa, stripGo_start_quote, stripGo_pending_quote,
      stripGo_no_quote b hqb]

/-- Concrete instance of the amended C3: the escaped value `a\;b` round
trips to `"a\;b"`, and the wire value `Alpha""Bravo` reads as
`AlphaBravo`. -/
theorem c3_txt_roundtrip_amended_witness :
    data_for_TXT_value (params_for_TXT_value (str "a\\;b"))
      = '\"' :: (str "a\\;b" ++ ['\"'])
    ∧ data_for_TXT_value (str "Alpha" ++ '\"' :: '\"' :: str "Bravo")
      = str "Alpha" ++ str "Bravo" := by
  constructor
  · exact c3_txt_roundtrip_amended.1 (str "a\\;b") (by decide) (by decide)
      (by decide)
  · exact c3_txt_roundtrip_amended.2 (str "Alpha") (str "Bravo") (by decide)
      (by decide) (by decide) (by decide) (by decide)

/-- Every event of a bulk delete is a delete batch for that zone. -/
theorem mem_delete_events (z : Str) (bs : Nat) (ids : List Nat) (e : ApiEvent)
    (he : e ∈ record_multi_delete_events z bs ids) :
    ∃ b, e = ApiEvent.deleteBatch z b := by
  unfold record_multi_delete_events at he
  obtain ⟨b, _, hb⟩ := List.mem_map.mp he
  exact ⟨b, hb.symm⟩

/-- Every event of a bulk create is a create batch for that zone. -/
theorem mem_create_events (z : Str) (bs : Nat) (ps : List CreateParam) (e : ApiEvent)
    (he : e ∈ record_multi_create_events z bs ps) :
    ∃ b, e = ApiEvent.createBatch z b := by
  unfold record_multi_create_events at he
  obtain ⟨b, _, hb⟩ := List.mem_map.mp he
  exact ⟨b, hb.symm⟩

/-- Every event of the delete half of a zone's operations is a delete
batch for that zone. -/
theorem mem_del_part (bs : Nat) (t : ModTriple) (e : ApiEvent)
    (he : e ∈ (if t.deletions.isEmpty then []
               else record_multi_delete_events t.zone bs t.deletions)) :
    ∃ b, e = ApiEvent.deleteBatch t.zone b := by
  by_cases hd : t.deletions.isEmpty
  · rw [if_pos hd] at he
    exact absurd he (List.not_mem_nil e)
  · rw [if_neg hd] at he
    exact mem_delete_events _ _ _ _ he

/-- Every event of the create half of a zone's operations is a create
batch for that zone. -/
theorem mem_cre_part (bs : Nat) (t : ModTriple) (e : ApiEvent)
    (he : e ∈ (if t.creations.isEmpty then []
               else record_multi_create_events t.zone bs t.creations)) :
    ∃ b, e = ApiEvent.createBatch t.zone b := by
  by_cases hc : t.creations.isEmpty
  · rw [if_pos hc] at he
    exact absurd he (List.not_mem_nil e)
  · rw [if_neg hc] at he
    exact mem_create_events _ _ _ _ he

/-- Every event issued for one zone's operations is a delete batch or a
create batch for that zone. -/
theorem mem_zone_events (bs : Nat) (t : ModTriple) (e : ApiEvent)
    (he : e ∈ zone_events bs t) :
    (∃ b, e = ApiEvent.deleteBatch t.zone b)
    ∨ (∃ b, e = ApiEvent.createBatch t.zone b) := by
  unfold zone_events at he
  rcases List.mem_append.mp he with h1 | h2
  · exact Or.inl (mem_del_part bs t e h1)
  · exact Or.inr (mem_cre_part bs t e h2)

/-- Within one zone's operations, the record events split as all deletes
followed by all creates. -/
theorem zone_events_filter_split (bs : Nat) (t : ModTriple) (w : Str) :
    (zone_events bs t).filter (fun e => isDeleteFor w e || isCreateFor w e)
      = (zone_events bs t).filter (fun e => isDeleteFor w e)
        ++ (zone_events bs t).filter (fun e => isCreateFor w e) := by
  unfold zone_events
  rw [List.filter_append, List.filter_append, List.filter_append]
  have hDcre : (if t.deletions.isEmpty then []
      else record_multi_delete_events t.zone bs t.deletions).filter
        (fun e => isCreateFor w e) = [] := by
    apply List.filter_eq_nil_iff.mpr
    intro e he
    obtain ⟨b, hb⟩ := mem_del_part bs t e he
    subst hb
    simp [isCreateFor]
  have hCdel : (if t.creations.isEmpty then []
      else record_multi_create_events t.zone bs t.creations).filter
        (fun e => isDeleteFor w e) = [] := by
    apply List.filter_eq_nil_iff.mpr
    intro e he
    obtain ⟨b, hb⟩ := mem_cre_part bs t e he
    subst hb
    simp [isDeleteFor]
  have hDboth : (if t.deletions.isEmpty then []
      else record_multi_delete_events t.zone bs t.deletions).filter
        (fun e => isDeleteFor w e || isCreateFor w e)
      = (if t.deletions.isEmpty then []
         else record_multi_delete_events t.zone bs t.deletions).filter
          (fun e => isDeleteFor w e) := by
    apply List.filter_congr
    intro e he
    obtain ⟨b, hb⟩ := mem_del_part bs t e he
    subst hb
    simp [isDeleteFor, isCreateFor]
  have hCboth : (if t.creations.isEmpty then []
      else record_multi_create_events t.zone bs t.creations).filter
        (fun e => isDeleteFor w e || isCreateFor w e)
      = (if t.creations.isEmpty then []
         else record_multi_create_events t.zone bs t.creations).filter
          (fun e => isCreateFor w e) := by
    apply List.filter_congr
    intro e he
    obtain ⟨b, hb⟩ := mem_cre_part bs t e he
    subst hb
    simp [isDeleteFor, isCreateFor]
  rw [hDboth, hCboth, hDcre, hCdel]
  simp

/-- A triple whose zone is already accumulated extends that zone's lists
in place, leaving the zone sequence unchanged. -/
theorem add_triple_map_zone_of_mem (acc : List ModTriple) (t : ModTriple)
    (h : acc.any (fun u => u.zone = t.zone) = true) :
    (add_triple acc t).map ModTriple.zone = acc.map ModTriple.zone := by
  unfold add_triple
  rw [if_pos h, List.map_map]
  apply List.map_congr_left
  intro u _
  by_cases hz : u.zone = t.zone <;> simp [hz]

/-- A triple for a new zone is appended at the end. -/
theorem add_triple_of_not_mem (acc : List ModTriple) (t : ModTriple)
    (h : acc.any (fun u => u.zone = t.zone) = false) :
    add_triple acc t = acc ++ [t] := by
  unfold add_triple
  rw [if_neg]
  rw [h]
  simp

/-- The accumulation loop of `_apply` produces at most one triple per
zone (it is a dict keyed by zone name). -/
theorem accum_ops_zones_nodup (mods : List ModTriple) :
    ((accum_ops mods).map ModTriple.zone).Nodup := by
  unfold accum_ops
  suffices h : ∀ acc : List ModTriple, (acc.map ModTriple.zone).Nodup →
      ((mods.foldl add_triple acc).map ModTriple.zone).Nodup by
    exact h [] (by simp)
  induction mods with
  | nil => exact fun acc h => h
  | cons t rest ih =>
    intro acc h
    simp only [List.foldl_cons]
    apply ih
    cases hany : acc.any (fun u => u.zone = t.zone) with
    | true =>
      rw [add_triple_map_zone_of_mem acc t hany]
      exact h
    | false =>
      rw [add_triple_of_not_mem acc t hany, List.map_append]
      have hnm : t.zone ∉ acc.map ModTriple.zone := by
        intro hm
        obtain ⟨u, hu, he⟩ := List.mem_map.mp hm
        have : acc.any (fun u => u.zone = t.zone) = true :=
          List.any_eq_true.mpr ⟨u, hu, by simp [he]⟩
        rw [this] at hany
        cases hany
      simp [List.nodup_append, h, hnm]

/-- Across the per-zone operation blocks of an apply run (one block per
zone), the record events of each zone split as all of its deletes
followed by all of its creates. -/
theorem flatMap_zone_events_filter_split (bs : Nat) (w : Str) :
    ∀ ts : List ModTriple, (ts.map ModTriple.zone).Nodup →
    (ts.flatMap (zone_events bs)).filter (fun e => isDeleteFor w e || isCreateFor w e)
      = (ts.flatMap (zone_events bs)).filter (fun e => isDeleteFor w e)
        ++ (ts.flatMap (zone_events bs)).filter (fun e => isCreateFor w e) := by
  intro ts
  induction ts with
  | nil => exact fun _ => rfl
  | cons t rest ih =>
    intro h
    simp only [List.flatMap_cons, List.filter_append]
    simp only [List.map_cons, List.nodup_cons] at h
    by_cases hw : t.zone = w
    · have hwrest : ∀ u ∈ rest, u.zone ≠ w := by
        intro u hu he
        exact h.1 (by
          rw [← he] at hw
          rw [hw]
          exact List.mem_map.mpr ⟨u, hu, rfl⟩)
      have hnil : ∀ p : ApiEvent → Bool,
          (∀ z b, z ≠ w → p (ApiEvent.deleteBatch z b) = false) →
          (∀ z b, z ≠ w → p (ApiEvent.createBatch z b) = false) →
          (rest.flatMap (zone_events bs)).filter p = [] := by
        intro p hp1 hp2
        apply List.filter_eq_nil_iff.mpr
        intro e he
        obtain ⟨u, hu, hue⟩ := List.mem_flatMap.mp he
        rcases mem_zone_events bs u e hue with ⟨b, hb⟩ | ⟨b, hb⟩
        · subst hb
          simp [hp1 u.zone b (hwrest u hu)]
        · subst hb
          simp [hp2 u.zone b (hwrest u hu)]
      have hb0 := hnil (fun e => isDeleteFor w e || isCreateFor w e)
        (by intro z b hz; simp [isDeleteFor, isCreateFor, hz])
        (by intro z b hz; simp [isDeleteFor, isCreateFor, hz])
      have hd0 := hnil (fun e => isDeleteFor w e)
        (by intro z b hz; simp [isDeleteFor, hz])
        (by intro z b _; simp [isDeleteFor])
      have hc0 := hnil (fun e => isCreateFor w e)
        (by intro z b _; simp [isCreateFor])
        (by intro z b hz; simp [isCreateFor, hz])
      rw [hb0, hd0, hc0, zone_events_filter_split bs t w]
      simp
    · have hbd : (zone_events bs t).filter (fun e => isDeleteFor w e) = [] := by
        apply List.filter_eq_nil_iff.mpr
        intro e he
        rcases mem_zone_events bs t e he with ⟨b, hb⟩ | ⟨b, hb⟩ <;> subst hb <;>
          simp [isDeleteFor, isCreateFor, hw]
      have hbc : (zone_events bs t).filter (fun e => isCreateFor w e) = [] := by
        apply List.filter_eq_nil_iff.mpr
        intro e he
        rcases mem_zone_events bs t e he with ⟨b, hb⟩ | ⟨b, hb⟩ <;> subst hb <;>
          simp [isDeleteFor, isCreateFor, hw]
      have hbboth : (zone_events bs t).filter
          (fun e => isDeleteFor w e || isCreateFor w e) = [] := by
        apply List.filter_eq_nil_iff.mpr
        intro e he
        rcases mem_zone_events bs t e he with ⟨b, hb⟩ | ⟨b, hb⟩ <;> subst hb <;>
          simp [isDeleteFor, isCreateFor, hw]
      rw [hbboth, hbd, hbc, ih h.2]
      simp

/-- Claim C1: one apply invocation first probes the target domain by name
(`desired.name[:-1]`); any probe error other than NotFound propagates
unchanged; on NotFound the domain is created next and its new id lands
in the domain-id cache under the dot-terminated name; for every zone all
its accumulated deletions are issued before any of its creations; and on
completion the plan zone's cached record listing is invalidated while
every other zone's cache entry is untouched. -/
theorem c1_apply_orchestration (bs : Nat) (st : ApplyState) (dname : Str)
    (fetch : FetchOutcome) (cid : Nat) (mods : List ModTriple)
    (hnd : (st.zoneRecords.map Prod.fst).Nodup) :
    (∀ e, fetch = FetchOutcome.otherError e →
        apply_plan bs st dname fetch cid mods = Except.error e)
    ∧ (∀ evs st', apply_plan bs st dname fetch cid mods = Except.ok (evs, st') →
        evs.head? = some (ApiEvent.getDomain dname.dropLast)
        ∧ (fetch = FetchOutcome.notFound →
            evs.get? 1 = some (ApiEvent.postDomainCreate dname.dropLast)
            ∧ alookup st'.domains (dname.dropLast ++ ['.']) = some cid)
        ∧ (∀ z, evs.filter (fun e => isDeleteFor z e || isCreateFor z e)
            = evs.filter (fun e => isDeleteFor z e)
              ++ evs.filter (fun e => isCreateFor z e))
        ∧ alookup st'.zoneRecords dname = none
        ∧ (∀ z, z ≠ dname → alookup st'.zoneRecords z = alookup st.zoneRecords z))
    ∧ (fetch = FetchOutcome.found ∨ fetch = FetchOutcome.notFound →
        ∃ evs st', apply_plan bs st dname fetch cid mods
          = Except.ok (evs, st')) := by
  cases fetch with
  | otherError e0 =>
    refine ⟨?_, ?_, ?_⟩
    · intro e he
      cases he
      rfl
    · intro evs st' hok
      simp [apply_plan] at hok
    · intro h
      rcases h with h | h <;> cases h
  | found =>
    refine ⟨?_, ?_, ?_⟩
    · intro e he
      cases he
    · intro evs st' hok
      simp only [apply_plan, Except.ok.injEq, Prod.mk.injEq] at hok
      obtain ⟨hevs, hst⟩ := hok
      subst hevs
      subst hst
      refine ⟨rfl, ?_, ?_, ?_, ?_⟩
      · intro hnf
        cases hnf
      · intro z
        have hfd : isDeleteFor z (ApiEvent.getDomain dname.dropLast) = false := rfl
        have hfc : isCreateFor z (ApiEvent.getDomain dname.dropLast) = false := rfl
        simp only [List.filter_cons, hfd, hfc, Bool.or_self, Bool.false_eq_true,
          if_false]
        exact flatMap_zone_events_filter_split bs z (accum_ops mods)
          (accum_ops_zones_nodup mods)
      · exact alookup_aerase_self st.zoneRecords dname hnd
      · intro z hz
        exact alookup_aerase_other st.zoneRecords dname z hz
    · intro _
      exact ⟨_, _, rfl⟩
  | notFound =>
    refine ⟨?_, ?_, ?_⟩
    · intro e he
      cases he
    · intro evs st' hok
      simp only [apply_plan, Except.ok.injEq, Prod.mk.injEq] at hok
      obtain ⟨hevs, hst⟩ := hok
      subst hevs
      subst hst
      refine ⟨rfl, ?_, ?_, ?_, ?_⟩
      · intro _
        refine ⟨rfl, ?_⟩
        exact alookup_aupdate_self st.domains (dname.dropLast ++ ['.']) cid
      · intro z
        have hfd : isDeleteFor z (ApiEvent.getDomain dname.dropLast) = false := rfl
        have hfc : isCreateFor z (ApiEvent.getDomain dname.dropLast) = false := rfl
        have hpd : isDeleteFor z (ApiEvent.postDomainCreate dname.dropLast) = false := rfl
        have hpc : isCreateFor z (ApiEvent.postDomainCreate dname.dropLast) = false := rfl
        simp only [List.filter_cons, hfd, hfc, hpd, hpc, Bool.or_self,
          Bool.false_eq_true, if_false]
        exact flatMap_zone_events_filter_split bs z (accum_ops mods)
          (accum_ops_zones_nodup mods)
      · exact alookup_aerase_self st.zoneRecords dname hnd
      · intro z hz
        exact alookup_aerase_other st.zoneRecords dname z hz
    · intro _
      exact ⟨_, _, rfl⟩

/-- Concrete instance of C1: applying a one-zone plan against a state
whose zone cache holds the plan's zone, with a NotFound probe outcome,
succeeds; the trace starts with the domain probe and the new state's
cache no longer holds the zone. -/
theorem c1_apply_orchestration_witness :
    ∃ evs st',
      apply_plan 2 ⟨[], [(str "unit.tests.", [])]⟩ (str "unit.tests.")
        FetchOutcome.notFound 5
        [⟨str "unit.tests.", [11, 12], [⟨str "A", str "", 300, str "1.2.3.4", none⟩]⟩]
        = Except.ok (evs, st')
      ∧ evs.head? = some (ApiEvent.getDomain (str "unit.tests.").dropLast)
      ∧ alookup st'.zoneRecords (str "unit.tests.") = none := by
  have h := c1_apply_orchestration 2 ⟨[], [(str "unit.tests.", [])]⟩
    (str "unit.tests.") FetchOutcome.notFound 5
    [⟨str "unit.tests.", [11, 12], [⟨str "A", str "", 300, str "1.2.3.4", none⟩]⟩]
    (by decide)
  obtain ⟨evs, st', hok⟩ := h.2.2 (Or.inr rfl)
  have h2 := h.2.1 evs st' hok
  exact ⟨evs, st', hok, h2.1, h2.2.2.2.1⟩
